import Mathlib

set_option maxHeartbeats 1000000

/-! Verification of the physics core of the PN-junction diode simulator
    (`src/utils/physics.ts`).

    Shallow embedding: the JavaScript numeric code is modelled over the real
    numbers; `Math.exp` is `Real.exp`, `Math.sqrt` is `Real.sqrt`,
    `Math.min`/`Math.max` are `min`/`max`, and decimal literals denote the
    exact rationals they spell.  The `for`-loops of the source (the fixed
    10-iteration Newton-Raphson loop and the voltage sweep) are modelled by
    structurally recursive functions; the sweep recursion carries a fuel
    argument strictly larger than the number of iterations the loop can
    perform, so it never runs out. -/

namespace PNJunction

/-- Doping levels, from `src/types.ts` (`enum DopingLevel`). -/
inductive DopingLevel
  | LIGHT
  | MODERATE
  | HEAVY
deriving DecidableEq

/-- Simulation fidelity modes, from `src/types.ts` (`enum SimulationMode`). -/
inductive SimulationMode
  | IDEAL
  | NON_IDEAL
deriving DecidableEq

/-- Diode parameter record, from `src/types.ts` (`interface DiodeParams`). -/
structure DiodeParams where
  Is : ℝ
  n : ℝ
  Vbi : ℝ
  Rs : ℝ
  breakdownVoltage : ℝ

/-- Validity invariants on `DiodeParams` stated in spec §3. -/
def DiodeParams.Valid (p : DiodeParams) : Prop :=
  0 < p.Is ∧ 1 ≤ p.n ∧ 0 < p.Vbi ∧ 0 ≤ p.Rs ∧ p.breakdownVoltage < 0

/-- `THERMAL_VOLTAGE_VT` constant from `src/utils/physics.ts`. -/
def THERMAL_VOLTAGE_VT : ℝ := 0.026

/-- `getDiodeParams` from `src/utils/physics.ts`. -/
def getDiodeParams : DopingLevel → DiodeParams
  | .LIGHT => { Is := 1e-12, n := 1.1, Vbi := 0.60, Rs := 25, breakdownVoltage := -50 }
  | .HEAVY => { Is := 1e-9, n := 1.5, Vbi := 0.85, Rs := 2, breakdownVoltage := -4.5 }
  | .MODERATE => { Is := 1e-11, n := 1.2, Vbi := 0.70, Rs := 10, breakdownVoltage := -20 }

/-- The body of the Newton-Raphson `for`-loop of `calculateCurrent`
    (non-ideal forward branch), iterated on the remaining iteration count.
    The loop body computes `nextVd = Vd - f/df` and exits early
    (returning the freshly assigned `Vd = nextVd`) once
    `|nextVd - Vd| < 1e-5`. -/
noncomputable def newtonLoop (p : DiodeParams) (voltage : ℝ) : ℕ → ℝ → ℝ
  | 0, Vd => Vd
  | k + 1, Vd =>
    let expTerm := Real.exp (Vd / (p.n * THERMAL_VOLTAGE_VT))
    let f := Vd + p.Is * p.Rs * (expTerm - 1) - voltage
    let df := 1 + p.Is * p.Rs * expTerm / (p.n * THERMAL_VOLTAGE_VT)
    let nextVd := Vd - f / df
    if |nextVd - Vd| < 1e-5 then nextVd else newtonLoop p voltage k nextVd

/-- `calculateCurrent` from `src/utils/physics.ts`. -/
noncomputable def calculateCurrent (voltage : ℝ) (p : DiodeParams) (mode : SimulationMode) : ℝ :=
  match mode with
  | .IDEAL =>
    if 0 ≤ voltage then
      p.Is * (Real.exp (voltage / (p.n * THERMAL_VOLTAGE_VT)) - 1)
    else
      -p.Is
  | .NON_IDEAL =>
    if 0 ≤ voltage then
      let Vd := newtonLoop p voltage 10 voltage
      let VdClamped := if voltage < Vd then voltage else Vd
      p.Is * (Real.exp (VdClamped / (p.n * THERMAL_VOLTAGE_VT)) - 1)
    else
      let leakageCurrent := voltage * 1e-8
      let shockleyCurrent := p.Is * (Real.exp (voltage / (p.n * THERMAL_VOLTAGE_VT)) - 1)
      let breakdownCurrent :=
        if voltage < p.breakdownVoltage then
          -p.Is * (Real.exp ((p.breakdownVoltage - voltage) * 2) - 1) * 1000
        else
          0
      shockleyCurrent + leakageCurrent + breakdownCurrent

/-- `calculateDepletionFactor` from `src/utils/physics.ts`. -/
noncomputable def calculateDepletionFactor (voltage Vbi : ℝ) : ℝ :=
  let V_effective := min voltage (Vbi - 0.05)
  let w := Real.sqrt (Vbi - V_effective) / Real.sqrt Vbi
  max 0.1 (min 3.0 w)

/-- Model of JavaScript `parseFloat(v.toFixed(2))`: rounding to two decimal
    places (the sweep only ever applies it to exact multiples of `0.1`,
    where every round-to-nearest convention agrees). -/
noncomputable def toFixed2 (v : ℝ) : ℝ := (round (v * 100) : ℤ) / 100

/-- A sampled point of the I-V curve (the `{v, i}` records pushed by
    `generateCurveData`). -/
structure CurvePoint where
  v : ℝ
  i : ℝ

/-- The voltage sweep loop `for (let v = -5.0; v <= 5.0; v += 0.1)` of
    `generateCurveData`, collecting the `vFixed` values recorded in each
    iteration.  The fuel argument (instantiated with 200, strictly more
    than the 101 iterations the loop performs) only makes the recursion
    structural; it is never exhausted. -/
noncomputable def sweepAux : ℕ → ℝ → List ℝ
  | 0, _ => []
  | fuel + 1, v => if v ≤ 5 then toFixed2 v :: sweepAux fuel (v + 0.1) else []

/-- The list of `vFixed` voltage samples produced by `generateCurveData`. -/
noncomputable def sweepVoltages : List ℝ := sweepAux 200 (-5.0)

/-- Result record of `generateCurveData`. -/
structure CurveData where
  idealPoints : List CurvePoint
  nonIdealPoints : List CurvePoint

/-- `generateCurveData` from `src/utils/physics.ts`.  The source pushes one
    ideal point and one non-ideal point per loop iteration; this is modelled
    as two maps over the same list of sampled voltages. -/
noncomputable def generateCurveData (p : DiodeParams) : CurveData :=
  { idealPoints :=
      sweepVoltages.map fun v => ⟨v, calculateCurrent v p .IDEAL * 1000⟩
    nonIdealPoints :=
      sweepVoltages.map fun v => ⟨v, calculateCurrent v p .NON_IDEAL * 1000⟩ }

/-! ### Basic facts about the solver at zero bias -/

lemma newtonLoop_zero (p : DiodeParams) (k : ℕ) : newtonLoop p 0 (k + 1) 0 = 0 := by
  simp [newtonLoop]
  exact fun h => absurd h (by norm_num)

/-! ### Claim theorems: ideal mode, reverse model, zero bias, depletion factor -/

/-- C3: in Ideal mode `calculateCurrent` returns the Shockley law
    `Is * (exp(voltage/(n*0.026)) - 1)` for `voltage ≥ 0` and exactly `-Is`
    for `voltage < 0`. -/
theorem claim_C3 (v : ℝ) (p : DiodeParams) (hp : p.Valid) :
    (0 ≤ v → calculateCurrent v p .IDEAL = p.Is * (Real.exp (v / (p.n * 0.026)) - 1)) ∧
    (v < 0 → calculateCurrent v p .IDEAL = -p.Is) := by
  constructor
  · intro h
    simp [calculateCurrent, THERMAL_VOLTAGE_VT, h]
  · intro h
    simp [calculateCurrent, THERMAL_VOLTAGE_VT, not_le.mpr h]

/-- Witness for C3 at `v = 1` and `v = -1` with the Moderate parameter set. -/
theorem claim_C3_witness :
    calculateCurrent 1 (getDiodeParams .MODERATE) .IDEAL
        = (getDiodeParams .MODERATE).Is *
            (Real.exp (1 / ((getDiodeParams .MODERATE).n * 0.026)) - 1) ∧
    calculateCurrent (-1) (getDiodeParams .MODERATE) .IDEAL
        = -(getDiodeParams .MODERATE).Is :=
  ⟨(claim_C3 1 _ (by norm_num [DiodeParams.Valid, getDiodeParams])).1 (by norm_num),
   (claim_C3 (-1) _ (by norm_num [DiodeParams.Valid, getDiodeParams])).2 (by norm_num)⟩

/-- C4: in NonIdeal mode at reverse bias the current is the sum of the linear
    leakage term `voltage * 1e-8`, the Shockley term, and the soft-breakdown
    term, which is `0` when `voltage ≥ breakdownVoltage` and
    `-Is * (exp((breakdownVoltage - voltage)*2) - 1) * 1000` when
    `voltage < breakdownVoltage`. -/
theorem claim_C4 (v : ℝ) (p : DiodeParams) (hv : v < 0) (hp : p.Valid) :
    (p.breakdownVoltage ≤ v →
      calculateCurrent v p .NON_IDEAL =
        v * 1e-8 + p.Is * (Real.exp (v / (p.n * 0.026)) - 1) + 0) ∧
    (v < p.breakdownVoltage →
      calculateCurrent v p .NON_IDEAL =
        v * 1e-8 + p.Is * (Real.exp (v / (p.n * 0.026)) - 1) +
          -p.Is * (Real.exp ((p.breakdownVoltage - v) * 2) - 1) * 1000) := by
  constructor
  · intro h
    simp [calculateCurrent, THERMAL_VOLTAGE_VT, not_le.mpr hv, not_lt.mpr h]
    ring
  · intro h
    simp [calculateCurrent, THERMAL_VOLTAGE_VT, not_le.mpr hv, h]
    ring

/-- Witness for C4 with the Heavy parameter set on both sides of breakdown. -/
theorem claim_C4_witness :
    calculateCurrent (-1) (getDiodeParams .HEAVY) .NON_IDEAL =
        (-1) * 1e-8 + (getDiodeParams .HEAVY).Is *
          (Real.exp ((-1) / ((getDiodeParams .HEAVY).n * 0.026)) - 1) + 0 ∧
    calculateCurrent (-5) (getDiodeParams .HEAVY) .NON_IDEAL =
        (-5) * 1e-8 + (getDiodeParams .HEAVY).Is *
          (Real.exp ((-5) / ((getDiodeParams .HEAVY).n * 0.026)) - 1) +
          -(getDiodeParams .HEAVY).Is *
            (Real.exp (((getDiodeParams .HEAVY).breakdownVoltage - (-5)) * 2) - 1) * 1000 :=
  ⟨(claim_C4 (-1) _ (by norm_num) (by norm_num [DiodeParams.Valid, getDiodeParams])).1
      (by norm_num [getDiodeParams]),
   (claim_C4 (-5) _ (by norm_num) (by norm_num [DiodeParams.Valid, getDiodeParams])).2
      (by norm_num [getDiodeParams])⟩

/-- C5: at zero bias both modes return exactly zero current; in particular the
    Newton-Raphson solver converges immediately at `Vd = 0` and leaves no
    residual offset. -/
theorem claim_C5 (p : DiodeParams) (mode : SimulationMode) (hp : p.Valid) :
    calculateCurrent 0 p mode = 0 := by
  cases mode with
  | IDEAL => simp [calculateCurrent]
  | NON_IDEAL =>
    have h := newtonLoop_zero p 9
    simp [calculateCurrent, h]

/-- Witness for C5: zero bias with the Moderate parameter set, both modes. -/
theorem claim_C5_witness :
    calculateCurrent 0 (getDiodeParams .MODERATE) .IDEAL = 0 ∧
    calculateCurrent 0 (getDiodeParams .MODERATE) .NON_IDEAL = 0 :=
  ⟨claim_C5 _ _ (by norm_num [DiodeParams.Valid, getDiodeParams]),
   claim_C5 _ _ (by norm_num [DiodeParams.Valid, getDiodeParams])⟩

/-- C6: for `Vbi > 0` the depletion factor always lies in `[0.1, 3.0]` and is
    monotonically non-increasing in the applied voltage. -/
theorem claim_C6 (Vbi v v1 v2 : ℝ) (hVbi : 0 < Vbi) (h12 : v1 ≤ v2) :
    (0.1 ≤ calculateDepletionFactor v Vbi ∧ calculateDepletionFactor v Vbi ≤ 3.0) ∧
    calculateDepletionFactor v2 Vbi ≤ calculateDepletionFactor v1 Vbi := by
  have hs : 0 < Real.sqrt Vbi := Real.sqrt_pos.mpr hVbi
  refine ⟨⟨le_max_left _ _, max_le (by norm_num) (min_le_left _ _)⟩, ?_⟩
  simp only [calculateDepletionFactor]
  have hmin : min v1 (Vbi - 0.05) ≤ min v2 (Vbi - 0.05) :=
    min_le_min h12 le_rfl
  have hsub : Vbi - min v2 (Vbi - 0.05) ≤ Vbi - min v1 (Vbi - 0.05) := by linarith
  have hsqrt : Real.sqrt (Vbi - min v2 (Vbi - 0.05)) ≤
      Real.sqrt (Vbi - min v1 (Vbi - 0.05)) := Real.sqrt_le_sqrt hsub
  have hdiv : Real.sqrt (Vbi - min v2 (Vbi - 0.05)) / Real.sqrt Vbi ≤
      Real.sqrt (Vbi - min v1 (Vbi - 0.05)) / Real.sqrt Vbi :=
    div_le_div_of_nonneg_right hsqrt hs.le |>.trans_eq rfl
  exact max_le_max le_rfl (min_le_min le_rfl hdiv)

/-- Witness for C6 at `Vbi = 0.7`, `v = 0.2`, `v1 = 0.1 ≤ v2 = 0.3`. -/
theorem claim_C6_witness :
    (0.1 ≤ calculateDepletionFactor 0.2 0.7 ∧ calculateDepletionFactor 0.2 0.7 ≤ 3.0) ∧
    calculateDepletionFactor 0.3 0.7 ≤ calculateDepletionFactor 0.1 0.7 :=
  claim_C6 0.7 0.2 0.1 0.3 (by norm_num) (by norm_num)

/-! ### The voltage sweep produces the exact grid -5.0, -4.9, …, 5.0 -/

lemma toFixed2_grid (j : ℤ) : toFixed2 ((j : ℝ) / 10) = (j : ℝ) / 10 := by
  have h : ((j : ℝ) / 10) * 100 = ((j * 10 : ℤ) : ℝ) := by push_cast; ring
  simp only [toFixed2, h, round_intCast]
  push_cast
  ring

lemma sweepAux_eq (fuel : ℕ) : ∀ j : ℕ, j ≤ 101 → 101 - j ≤ fuel →
    sweepAux fuel (-5 + (j : ℝ) / 10) =
      (List.range (101 - j)).map fun i : ℕ => -5 + ((j : ℝ) + (i : ℝ)) / 10 := by
  induction fuel with
  | zero =>
    intro j hj hfuel
    have hj101 : j = 101 := by omega
    subst hj101
    simp [sweepAux]
  | succ fuel ih =>
    intro j hj hfuel
    by_cases hj100 : j ≤ 100
    · have hcast : (j : ℝ) ≤ 100 := by exact_mod_cast hj100
      have hcond : -5 + (j : ℝ) / 10 ≤ 5 := by linarith
      have hfix : toFixed2 (-5 + (j : ℝ) / 10) = -5 + (j : ℝ) / 10 := by
        have h1 : -5 + (j : ℝ) / 10 = ((j : ℤ) - 50 : ℤ) / 10 := by push_cast; ring
        rw [h1, toFixed2_grid]
      have hstep : -5 + (j : ℝ) / 10 + 0.1 = -5 + ((j + 1 : ℕ) : ℝ) / 10 := by
        push_cast
        ring
      have hrange : 101 - j = (100 - j) + 1 := by omega
      have h100 : 101 - (j + 1) = 100 - j := by omega
      rw [sweepAux, if_pos hcond, hfix, hstep, ih (j + 1) (by omega) (by omega),
        hrange, List.range_succ_eq_map, List.map_cons, List.map_map, h100]
      refine List.cons_eq_cons.mpr ⟨by norm_num, ?_⟩
      apply List.map_congr_left
      intro i _
      simp only [Function.comp_apply]
      push_cast
      ring
    · have hj101 : j = 101 := by omega
      subst hj101
      have hcond : ¬(-5 + ((101 : ℕ) : ℝ) / 10 ≤ 5) := by push_cast; norm_num
      rw [sweepAux, if_neg hcond]
      simp

lemma sweepVoltages_eq :
    sweepVoltages = (List.range 101).map fun i : ℕ => -5 + (i : ℝ) / 10 := by
  have h := sweepAux_eq 200 0 (by norm_num) (by norm_num)
  rw [sweepVoltages, show (-5.0 : ℝ) = -5 + ((0 : ℕ) : ℝ) / 10 by norm_num, h]
  apply List.map_congr_left
  intro i _
  norm_num

lemma generateCurveData_ideal_eq (p : DiodeParams) :
    (generateCurveData p).idealPoints =
      (List.range 101).map fun i : ℕ =>
        ⟨-5 + (i : ℝ) / 10, calculateCurrent (-5 + (i : ℝ) / 10) p .IDEAL * 1000⟩ := by
  simp [generateCurveData, sweepVoltages_eq, List.map_map]

lemma generateCurveData_nonIdeal_eq (p : DiodeParams) :
    (generateCurveData p).nonIdealPoints =
      (List.range 101).map fun i : ℕ =>
        ⟨-5 + (i : ℝ) / 10, calculateCurrent (-5 + (i : ℝ) / 10) p .NON_IDEAL * 1000⟩ := by
  simp [generateCurveData, sweepVoltages_eq, List.map_map]

lemma grid_strict_chain (F : ℕ → CurvePoint) (hF : ∀ i, (F i).v = -5 + (i : ℝ) / 10) :
    List.Chain' (fun a b : CurvePoint => a.v < b.v) ((List.range 101).map F) := by
  rw [List.chain'_map]
  have h101 : (101 : ℕ) = 100 + 1 := rfl
  rw [h101, List.chain'_range_succ]
  intro m _
  rw [hF, hF]
  have : (m : ℝ) < (m + 1 : ℕ) := by exact_mod_cast Nat.lt_succ_self m
  push_cast
  push_cast at this
  linarith

/-- C2: `generateCurveData` returns two series of exactly 101 points each, on
    the voltage grid `-5.00, -4.90, …, 5.00` (strictly increasing, spanning
    `-5` to `5` inclusive in steps of `0.1`, each sample being the exactly
    rounded grid value), and each recorded current is `calculateCurrent` at
    the recorded voltage scaled by `1000`. -/
theorem claim_C2 (p : DiodeParams) :
    (generateCurveData p).idealPoints.length = 101 ∧
    (generateCurveData p).nonIdealPoints.length = 101 ∧
    ((generateCurveData p).idealPoints.map CurvePoint.v =
      (List.range 101).map fun i : ℕ => -5 + (i : ℝ) / 10) ∧
    ((generateCurveData p).nonIdealPoints.map CurvePoint.v =
      (List.range 101).map fun i : ℕ => -5 + (i : ℝ) / 10) ∧
    List.Chain' (fun a b : CurvePoint => a.v < b.v) (generateCurveData p).idealPoints ∧
    List.Chain' (fun a b : CurvePoint => a.v < b.v) (generateCurveData p).nonIdealPoints ∧
    (-5 : ℝ) ∈ (generateCurveData p).idealPoints.map CurvePoint.v ∧
    (5 : ℝ) ∈ (generateCurveData p).idealPoints.map CurvePoint.v ∧
    (∀ pt ∈ (generateCurveData p).idealPoints,
      pt.i = calculateCurrent pt.v p .IDEAL * 1000) ∧
    (∀ pt ∈ (generateCurveData p).nonIdealPoints,
      pt.i = calculateCurrent pt.v p .NON_IDEAL * 1000) := by
  refine ⟨?_, ?_, ?_, ?_, ?_, ?_, ?_, ?_, ?_, ?_⟩
  · rw [generateCurveData_ideal_eq]
    simp
  · rw [generateCurveData_nonIdeal_eq]
    simp
  · rw [generateCurveData_ideal_eq, List.map_map]
    rfl
  · rw [generateCurveData_nonIdeal_eq, List.map_map]
    rfl
  · rw [generateCurveData_ideal_eq]
    exact grid_strict_chain _ fun i => rfl
  · rw [generateCurveData_nonIdeal_eq]
    exact grid_strict_chain _ fun i => rfl
  · rw [generateCurveData_ideal_eq, List.map_map]
    refine List.mem_map.mpr ⟨0, by simp, by norm_num⟩
  · rw [generateCurveData_ideal_eq, List.map_map]
    refine List.mem_map.mpr ⟨100, by simp, by norm_num⟩
  · rw [generateCurveData_ideal_eq]
    intro pt hpt
    obtain ⟨i, _, rfl⟩ := List.mem_map.mp hpt
    rfl
  · rw [generateCurveData_nonIdeal_eq]
    intro pt hpt
    obtain ⟨i, _, rfl⟩ := List.mem_map.mp hpt
    rfl

/-- C10: the two series have equal length and identical voltage samples at
    every index. -/
theorem claim_C10 (p : DiodeParams) :
    (generateCurveData p).idealPoints.length =
      (generateCurveData p).nonIdealPoints.length ∧
    (generateCurveData p).idealPoints.map CurvePoint.v =
      (generateCurveData p).nonIdealPoints.map CurvePoint.v := by
  constructor
  · simp [generateCurveData]
  · simp [generateCurveData, List.map_map]

/-! ### Newton-Raphson residual: descent and convexity facts -/

/-- The residual `f(Vd) = Vd + Is*Rs*(exp(Vd/(n*Vt)) - 1) - voltage` computed
    by the Newton loop body. -/
noncomputable def fRes (p : DiodeParams) (voltage x : ℝ) : ℝ :=
  x + p.Is * p.Rs * (Real.exp (x / (p.n * THERMAL_VOLTAGE_VT)) - 1) - voltage

/-- The derivative `f'(Vd) = 1 + Is*Rs*exp(Vd/(n*Vt))/(n*Vt)` computed by the
    Newton loop body. -/
noncomputable def dfRes (p : DiodeParams) (x : ℝ) : ℝ :=
  1 + p.Is * p.Rs * Real.exp (x / (p.n * THERMAL_VOLTAGE_VT)) / (p.n * THERMAL_VOLTAGE_VT)

lemma newtonLoop_succ (p : DiodeParams) (V : ℝ) (k : ℕ) (x : ℝ) :
    newtonLoop p V (k + 1) x =
      if |x - fRes p V x / dfRes p x - x| < 1e-5 then x - fRes p V x / dfRes p x
      else newtonLoop p V k (x - fRes p V x / dfRes p x) := rfl

lemma dfRes_pos (p : DiodeParams) (x : ℝ) (ha : 0 ≤ p.Is * p.Rs)
    (hc : 0 < p.n * THERMAL_VOLTAGE_VT) : 0 < dfRes p x := by
  have h1 : 0 ≤ p.Is * p.Rs * Real.exp (x / (p.n * THERMAL_VOLTAGE_VT)) /
      (p.n * THERMAL_VOLTAGE_VT) :=
    div_nonneg (mul_nonneg ha (Real.exp_pos _).le) hc.le
  simp only [dfRes]
  linarith

/-- One Newton step from a point with nonnegative residual lands again at a
    point with nonnegative residual (tangent-line bound, using convexity of
    the exponential). -/
lemma newton_tangent (p : DiodeParams) (V x : ℝ) (ha : 0 ≤ p.Is * p.Rs)
    (hc : 0 < p.n * THERMAL_VOLTAGE_VT) (hf : 0 ≤ fRes p V x) :
    0 ≤ fRes p V (x - fRes p V x / dfRes p x) := by
  have hdf := dfRes_pos p x ha hc
  set c := p.n * THERMAL_VOLTAGE_VT with hcdef
  set a := p.Is * p.Rs with hadef
  set y := x - fRes p V x / dfRes p x with hy
  have hEsplit : Real.exp (y / c) = Real.exp (x / c) * Real.exp ((y - x) / c) := by
    rw [← Real.exp_add]
    congr 1
    field_simp
  have hEx : (0 : ℝ) < Real.exp (x / c) := Real.exp_pos _
  have hconv := Real.add_one_le_exp ((y - x) / c)
  have hmul : a * Real.exp (x / c) * ((y - x) / c + 1) ≤
      a * Real.exp (x / c) * Real.exp ((y - x) / c) :=
    mul_le_mul_of_nonneg_left hconv (mul_nonneg ha hEx.le)
  have key : fRes p V x + (y - x) * dfRes p x ≤ fRes p V y := by
    simp only [fRes, dfRes, hEsplit, ← hcdef, ← hadef]
    have hexp : (y - x) * (1 + a * Real.exp (x / c) / c) =
        (y - x) + a * Real.exp (x / c) * ((y - x) / c) := by
      field_simp
      ring
    nlinarith [hmul]
  have hstep : fRes p V x + (y - x) * dfRes p x = 0 := by
    rw [hy]
    field_simp
    ring
  linarith

/-- The Newton loop never moves up from a point with nonnegative residual. -/
lemma newtonLoop_le (p : DiodeParams) (V : ℝ) (ha : 0 ≤ p.Is * p.Rs)
    (hc : 0 < p.n * THERMAL_VOLTAGE_VT) :
    ∀ (k : ℕ) (x : ℝ), 0 ≤ fRes p V x → newtonLoop p V k x ≤ x := by
  intro k
  induction k with
  | zero => intro x _; exact le_refl x
  | succ k ih =>
    intro x hf
    have hdf := dfRes_pos p x ha hc
    have hstep : 0 ≤ fRes p V x / dfRes p x := div_nonneg hf hdf.le
    have hnext : x - fRes p V x / dfRes p x ≤ x := by linarith
    rw [newtonLoop_succ]
    by_cases hb : |x - fRes p V x / dfRes p x - x| < 1e-5
    · rw [if_pos hb]; exact hnext
    · rw [if_neg hb]
      exact (ih _ (newton_tangent p V x ha hc hf)).trans hnext

/-- In the forward branch at strictly positive voltage (with `Is*Rs > 0`) the
    solved junction voltage is strictly below the applied voltage. -/
lemma newtonLoop_lt_voltage (p : DiodeParams) (V : ℝ) (hV : 0 < V)
    (hapos : 0 < p.Is * p.Rs) (hc : 0 < p.n * THERMAL_VOLTAGE_VT) :
    newtonLoop p V 10 V < V := by
  have ha : 0 ≤ p.Is * p.Rs := hapos.le
  have hdf := dfRes_pos p V ha hc
  have hE1 : 1 < Real.exp (V / (p.n * THERMAL_VOLTAGE_VT)) := by
    have h := Real.exp_lt_exp.mpr (show (0 : ℝ) < V / (p.n * THERMAL_VOLTAGE_VT) from
      div_pos hV hc)
    rwa [Real.exp_zero] at h
  have hf0 : 0 < fRes p V V := by
    simp only [fRes]
    nlinarith
  have hsteppos : 0 < fRes p V V / dfRes p V := div_pos hf0 hdf
  have hnext : V - fRes p V V / dfRes p V < V := by linarith
  have h10 : (10 : ℕ) = 9 + 1 := rfl
  rw [h10, newtonLoop_succ]
  by_cases hb : |V - fRes p V V / dfRes p V - V| < 1e-5
  · rw [if_pos hb]; exact hnext
  · rw [if_neg hb]
    exact (newtonLoop_le p V ha hc 9 _ (newton_tangent p V V ha hc hf0.le)).trans_lt hnext

/-- C8: with the Moderate doping parameters, the non-ideal current at `0.7 V`
    is strictly below the ideal current, and the ideal current equals
    `1e-11 * (exp(0.7/(1.2*0.026)) - 1)`. -/
theorem claim_C8 :
    calculateCurrent 0.7 (getDiodeParams .MODERATE) .NON_IDEAL <
      calculateCurrent 0.7 (getDiodeParams .MODERATE) .IDEAL ∧
    calculateCurrent 0.7 (getDiodeParams .MODERATE) .IDEAL =
      1e-11 * (Real.exp (0.7 / (1.2 * 0.026)) - 1) := by
  have hc : (0 : ℝ) < (getDiodeParams .MODERATE).n * THERMAL_VOLTAGE_VT := by
    norm_num [getDiodeParams, THERMAL_VOLTAGE_VT]
  have hapos : (0 : ℝ) < (getDiodeParams .MODERATE).Is * (getDiodeParams .MODERATE).Rs := by
    norm_num [getDiodeParams]
  have hVd := newtonLoop_lt_voltage (getDiodeParams .MODERATE) 0.7 (by norm_num) hapos hc
  constructor
  · simp only [calculateCurrent]
    rw [if_pos (by norm_num : (0 : ℝ) ≤ 0.7), if_pos (by norm_num : (0 : ℝ) ≤ 0.7)]
    simp only [if_neg (not_lt.mpr hVd.le)]
    have hIs : (0 : ℝ) < (getDiodeParams .MODERATE).Is := by norm_num [getDiodeParams]
    have hexp : Real.exp (newtonLoop (getDiodeParams .MODERATE) 0.7 10 0.7 /
        ((getDiodeParams .MODERATE).n * THERMAL_VOLTAGE_VT)) <
        Real.exp (0.7 / ((getDiodeParams .MODERATE).n * THERMAL_VOLTAGE_VT)) :=
      Real.exp_lt_exp.mpr (div_lt_div_of_pos_right hVd hc)
    nlinarith
  · simp only [calculateCurrent]
    rw [if_pos (by norm_num : (0 : ℝ) ≤ 0.7)]
    norm_num [getDiodeParams, THERMAL_VOLTAGE_VT]

/-! ### C1: the forward non-ideal branch refines the spec's Newton-Raphson
    description -/

/-- Modelled from the spec §4.2 wording: Newton-Raphson iteration on
    `f(Vd) = Vd + Is*Rs*(exp(Vd/(n*Vt)) - 1) - voltage` with derivative
    `f'(Vd) = 1 + Is*Rs*exp(Vd/(n*Vt))/(n*Vt)`, initial guess `Vd0 = voltage`,
    a cap of 10 iterations and early exit once `|Vd_(k+1) - Vd_k| < 1e-5`. -/
noncomputable def specNewtonIterate (p : DiodeParams) (voltage : ℝ) : ℕ → ℝ → ℝ
  | 0, Vd => Vd
  | k + 1, Vd =>
    let next := Vd - fRes p voltage Vd / dfRes p Vd
    if |next - Vd| < 1e-5 then next else specNewtonIterate p voltage k next

/-- Modelled from the spec §4.2 wording: after the Newton loop, clamp
    `Vd ≤ voltage` and return the current `Is*(exp(Vd/(n*Vt)) - 1)`;
    the solver is total and never signals failure. -/
noncomputable def specForwardCurrent (p : DiodeParams) (voltage : ℝ) : ℝ :=
  let Vd := specNewtonIterate p voltage 10 voltage
  let VdClamped := min Vd voltage
  p.Is * (Real.exp (VdClamped / (p.n * THERMAL_VOLTAGE_VT)) - 1)

lemma newtonLoop_eq_specNewtonIterate (p : DiodeParams) (V : ℝ) :
    ∀ (k : ℕ) (x : ℝ), newtonLoop p V k x = specNewtonIterate p V k x := by
  intro k
  induction k with
  | zero => intro x; rfl
  | succ k ih =>
    intro x
    rw [newtonLoop_succ, specNewtonIterate]
    by_cases hb : |x - fRes p V x / dfRes p x - x| < 1e-5
    · rw [if_pos hb, if_pos hb]
    · rw [if_neg hb, if_neg hb]
      exact ih _

/-- C1: for `voltage ≥ 0` and valid parameters, the non-ideal branch of
    `calculateCurrent` computes exactly the spec-described Newton-Raphson
    solve (initial guess `voltage`, 10 iterations, early exit below `1e-5`,
    clamp `Vd ≤ voltage`, current `Is*(exp(Vd/(n*Vt)) - 1)`), returning a
    value (never failing) also when the loop exhausts its 10 iterations. -/
theorem claim_C1 (v : ℝ) (p : DiodeParams) (hv : 0 ≤ v) (hp : p.Valid) :
    calculateCurrent v p .NON_IDEAL = specForwardCurrent p v := by
  simp only [calculateCurrent, specForwardCurrent, if_pos hv,
    newtonLoop_eq_specNewtonIterate]
  rcases lt_or_le v (specNewtonIterate p v 10 v) with h | h
  · rw [if_pos h, min_eq_right h.le]
  · rw [if_neg (not_lt.mpr h), min_eq_left h]

/-- Witness for C1 at `v = 0.3` with the Light parameter set. -/
theorem claim_C1_witness :
    calculateCurrent 0.3 (getDiodeParams .LIGHT) .NON_IDEAL =
      specForwardCurrent (getDiodeParams .LIGHT) 0.3 :=
  claim_C1 0.3 _ (by norm_num) (by norm_num [DiodeParams.Valid, getDiodeParams])

/-! ### C7: monotonicity of the non-ideal forward solve -/

/-- The Newton iteration of `calculateCurrent` with the early-exit
    convergence test removed: all remaining iterations are always executed. -/
noncomputable def newtonLoopNoExit (p : DiodeParams) (voltage : ℝ) : ℕ → ℝ → ℝ
  | 0, Vd => Vd
  | k + 1, Vd => newtonLoopNoExit p voltage k (Vd - fRes p voltage Vd / dfRes p Vd)

/-- The non-ideal forward-bias current computed with the early-exit test
    removed from the Newton loop (same initial guess, iteration count, clamp
    and final current formula as `calculateCurrent`). -/
noncomputable def nonIdealForwardNoExit (p : DiodeParams) (voltage : ℝ) : ℝ :=
  let Vd := newtonLoopNoExit p voltage 10 voltage
  let VdClamped := if voltage < Vd then voltage else Vd
  p.Is * (Real.exp (VdClamped / (p.n * THERMAL_VOLTAGE_VT)) - 1)

lemma clamp_eq_min (v Vd : ℝ) : (if v < Vd then v else Vd) = min v Vd := by
  rcases lt_trichotomy v Vd with h | h | h
  · rw [if_pos h, min_eq_left h.le]
  · rw [h, if_neg (lt_irrefl Vd), min_self]
  · rw [if_neg (not_lt.mpr h.le), min_eq_right h.le]

lemma newton_step_mono_voltage (p : DiodeParams) (x V1 V2 : ℝ)
    (ha : 0 ≤ p.Is * p.Rs) (hc : 0 < p.n * THERMAL_VOLTAGE_VT) (hV : V1 ≤ V2) :
    x - fRes p V1 x / dfRes p x ≤ x - fRes p V2 x / dfRes p x := by
  have hdf := dfRes_pos p x ha hc
  have hf : fRes p V2 x ≤ fRes p V1 x := by simp only [fRes]; linarith
  have h2 := div_le_div_of_nonneg_right hf hdf.le
  linarith

lemma newton_step_mono_position (p : DiodeParams) (V x1 x2 : ℝ)
    (ha : 0 ≤ p.Is * p.Rs) (hc : 0 < p.n * THERMAL_VOLTAGE_VT) (hx : x1 ≤ x2)
    (hf1 : 0 ≤ fRes p V x1) :
    x1 - fRes p V x1 / dfRes p x1 ≤ x2 - fRes p V x2 / dfRes p x2 := by
  have hd1 := dfRes_pos p x1 ha hc
  have hd2 := dfRes_pos p x2 ha hc
  set c := p.n * THERMAL_VOLTAGE_VT with hcdef
  set a := p.Is * p.Rs with hadef
  set E1 := Real.exp (x1 / c) with hE1def
  set E2 := Real.exp (x2 / c) with hE2def
  have hE1pos : (0 : ℝ) < E1 := Real.exp_pos _
  have hE2pos : (0 : ℝ) < E2 := Real.exp_pos _
  have hE21 : E1 ≤ E2 := Real.exp_le_exp.mpr (div_le_div_of_nonneg_right hx hc.le)
  -- convexity: E2 - E1 ≤ E2 * (x2 - x1) / c
  have hsplit : E1 = E2 * Real.exp ((x1 - x2) / c) := by
    rw [hE1def, hE2def, ← Real.exp_add]
    congr 1
    field_simp
  have hconv := Real.add_one_le_exp ((x1 - x2) / c)
  have hcvx : E2 - E1 ≤ E2 * ((x2 - x1) / c) := by
    have h := mul_le_mul_of_nonneg_left hconv hE2pos.le
    rw [← hsplit] at h
    have hrw : E2 * ((x1 - x2) / c + 1) = E2 - E2 * ((x2 - x1) / c) := by ring
    linarith [hrw ▸ h]
  -- the two nonnegative product terms in the cross-multiplied difference
  have hP : 0 ≤ a * (E2 * ((x2 - x1) / c) - (E2 - E1)) :=
    mul_nonneg ha (by linarith)
  have hPd : (0 : ℝ) ≤ 1 + a * E1 / c := by
    have : 0 ≤ a * E1 / c := div_nonneg (mul_nonneg ha hE1pos.le) hc.le
    linarith
  have hQ : 0 ≤ x1 + a * E1 - (a + V) := by
    have : fRes p V x1 = x1 + a * E1 - (a + V) := by
      simp only [fRes, ← hadef, ← hcdef, ← hE1def]
      ring
    linarith [this ▸ hf1]
  have hcvx' : c * (E2 - E1) ≤ E2 * (x2 - x1) := by
    have h := mul_le_mul_of_nonneg_left hcvx hc.le
    have hrw : c * (E2 * ((x2 - x1) / c)) = E2 * (x2 - x1) := by
      field_simp
    linarith [hrw ▸ h]
  -- the two nonnegative product terms of the cross-multiplied difference
  have hD1pos : (0 : ℝ) < c + a * E1 :=
    add_pos_of_pos_of_nonneg hc (mul_nonneg ha hE1pos.le)
  have hD2pos : (0 : ℝ) < c + a * E2 :=
    add_pos_of_pos_of_nonneg hc (mul_nonneg ha hE2pos.le)
  have hprod1 : 0 ≤ a * (E2 * (x2 - x1) - c * (E2 - E1)) * (c + a * E1) :=
    mul_nonneg (mul_nonneg ha (by linarith)) hD1pos.le
  have hprod2 : 0 ≤ a * c * (E2 - E1) * (x1 + a * E1 - (a + V)) :=
    mul_nonneg (mul_nonneg (mul_nonneg ha hc.le) (by linarith)) hQ
  have hfd1 : fRes p V x1 = x1 + a * (E1 - 1) - V := by
    simp only [fRes, ← hadef, ← hcdef, ← hE1def]
  have hfd2 : fRes p V x2 = x2 + a * (E2 - 1) - V := by
    simp only [fRes, ← hadef, ← hcdef, ← hE2def]
  have hdd1 : dfRes p x1 = 1 + a * E1 / c := by
    simp only [dfRes, ← hadef, ← hcdef, ← hE1def]
  have hdd2 : dfRes p x2 = 1 + a * E2 / c := by
    simp only [dfRes, ← hadef, ← hcdef, ← hE2def]
  -- rewrite each step over the cleared denominator c + a*E
  have hq1 : fRes p V x1 / dfRes p x1 = c * fRes p V x1 / (c + a * E1) := by
    rw [hdd1]
    rw [div_eq_div_iff (by rw [hdd1] at hd1; exact hd1.ne') hD1pos.ne']
    field_simp
    ring
  have hq2 : fRes p V x2 / dfRes p x2 = c * fRes p V x2 / (c + a * E2) := by
    rw [hdd2]
    rw [div_eq_div_iff (by rw [hdd2] at hd2; exact hd2.ne') hD2pos.ne']
    field_simp
    ring
  rw [hq1, hq2, sub_div' _ _ _ hD1pos.ne', sub_div' _ _ _ hD2pos.ne',
    div_le_div_iff hD1pos hD2pos, hfd1, hfd2]
  nlinarith [hprod1, hprod2]

lemma newtonLoopNoExit_mono (p : DiodeParams)
    (ha : 0 ≤ p.Is * p.Rs) (hc : 0 < p.n * THERMAL_VOLTAGE_VT) :
    ∀ (k : ℕ) (V1 V2 x1 x2 : ℝ), V1 ≤ V2 → x1 ≤ x2 →
      0 ≤ fRes p V1 x1 → 0 ≤ fRes p V2 x2 →
      newtonLoopNoExit p V1 k x1 ≤ newtonLoopNoExit p V2 k x2 := by
  intro k
  induction k with
  | zero => intro V1 V2 x1 x2 _ hx _ _; exact hx
  | succ k ih =>
    intro V1 V2 x1 x2 hV hx hf1 hf2
    rw [newtonLoopNoExit, newtonLoopNoExit]
    have hstep : x1 - fRes p V1 x1 / dfRes p x1 ≤ x2 - fRes p V2 x2 / dfRes p x2 :=
      (newton_step_mono_position p V1 x1 x2 ha hc hx hf1).trans
        (newton_step_mono_voltage p x2 V1 V2 ha hc hV)
    exact ih V1 V2 _ _ hV hstep (newton_tangent p V1 x1 ha hc hf1)
      (newton_tangent p V2 x2 ha hc hf2)

lemma fRes_self_nonneg (p : DiodeParams) (V : ℝ) (hV : 0 ≤ V)
    (ha : 0 ≤ p.Is * p.Rs) (hc : 0 < p.n * THERMAL_VOLTAGE_VT) :
    0 ≤ fRes p V V := by
  have hE : 1 ≤ Real.exp (V / (p.n * THERMAL_VOLTAGE_VT)) := by
    rw [show (1 : ℝ) = Real.exp 0 from (Real.exp_zero).symm]
    exact Real.exp_le_exp.mpr (div_nonneg hV hc.le)
  simp only [fRes]
  nlinarith

/-- C7, as amended: with the early-exit convergence test removed (the Newton
    loop always runs its full ten iterations), the non-ideal forward current
    is monotone non-decreasing in the applied voltage. -/
theorem claim_C7_amended (p : DiodeParams) (hp : p.Valid) (v1 v2 : ℝ)
    (h1 : 0 ≤ v1) (h12 : v1 ≤ v2) :
    nonIdealForwardNoExit p v1 ≤ nonIdealForwardNoExit p v2 := by
  obtain ⟨hIs, hn, _, hRs, _⟩ := hp
  have ha : 0 ≤ p.Is * p.Rs := mul_nonneg hIs.le hRs
  have hc : 0 < p.n * THERMAL_VOLTAGE_VT := by
    have : (0 : ℝ) < THERMAL_VOLTAGE_VT := by norm_num [THERMAL_VOLTAGE_VT]
    nlinarith
  have h2 : 0 ≤ v2 := h1.trans h12
  have hVd : newtonLoopNoExit p v1 10 v1 ≤ newtonLoopNoExit p v2 10 v2 :=
    newtonLoopNoExit_mono p ha hc 10 v1 v2 v1 v2 h12 h12
      (fRes_self_nonneg p v1 h1 ha hc) (fRes_self_nonneg p v2 h2 ha hc)
  have hclamp :
      (if v1 < newtonLoopNoExit p v1 10 v1 then v1 else newtonLoopNoExit p v1 10 v1) ≤
      (if v2 < newtonLoopNoExit p v2 10 v2 then v2 else newtonLoopNoExit p v2 10 v2) := by
    rw [clamp_eq_min, clamp_eq_min]
    exact min_le_min h12 hVd
  simp only [nonIdealForwardNoExit]
  have hexp := Real.exp_le_exp.mpr (div_le_div_of_nonneg_right hclamp hc.le)
  nlinarith [hexp, hIs.le]

/-- Witness for the amended C7 with the Moderate parameter set. -/
theorem claim_C7_amended_witness :
    nonIdealForwardNoExit (getDiodeParams .MODERATE) 0.2 ≤
      nonIdealForwardNoExit (getDiodeParams .MODERATE) 0.4 :=
  claim_C7_amended _ (by norm_num [DiodeParams.Valid, getDiodeParams]) 0.2 0.4
    (by norm_num) (by norm_num)

/-! ### Certified exponential bounds for the C7 counterexample

    The voltages `0.3592135881084 < 0.3592135881085` straddle the threshold
    where the first Newton step size crosses the `1e-5` early-exit tolerance
    (with the Moderate parameter set), so the solver runs one iteration for
    the smaller voltage and two for the larger one; the extra Newton step
    overshoots downwards by more than the voltage increment gains, making the
    returned current decrease.  The bounds below are Taylor-series interval
    enclosures of the exponentials involved. -/

lemma exp_V1_lo : (100033.061878750399451394 : ℝ) ≤ Real.exp (0.3592135881084 / 0.0312) := by
  have hq : (0.3592135881084 : ℝ) / 0.0312 = (16 : ℕ) * (0.3592135881084 / 0.4992) := by
    norm_num
  have hy : (0 : ℝ) ≤ 0.3592135881084 / 0.4992 := by norm_num
  have hlow := Real.sum_le_exp_of_nonneg hy 20
  have hS : (2.053567453254476856430465733717 : ℝ) ≤
      ∑ i ∈ Finset.range 20, (0.3592135881084 / 0.4992 : ℝ) ^ i / i.factorial := by
    simp only [Finset.sum_range_succ, Finset.sum_range_zero]
    norm_num [Nat.factorial]
  rw [hq, Real.exp_nat_mul]
  calc (100033.061878750399451394 : ℝ)
      ≤ (2.053567453254476856430465733717 : ℝ) ^ 16 := by norm_num
    _ ≤ Real.exp (0.3592135881084 / 0.4992) ^ 16 :=
        pow_le_pow_left₀ (by norm_num) (hS.trans hlow) 16

lemma exp_V1_hi : Real.exp (0.3592135881084 / 0.0312) ≤ (100033.061878750399451861 : ℝ) := by
  have hq : (0.3592135881084 : ℝ) / 0.0312 = (16 : ℕ) * (0.3592135881084 / 0.4992) := by
    norm_num
  have hy : (0 : ℝ) ≤ 0.3592135881084 / 0.4992 := by norm_num
  have hy1 : (0.3592135881084 / 0.4992 : ℝ) ≤ 1 := by norm_num
  have hup := @Real.exp_bound' (0.3592135881084 / 0.4992) hy hy1 20 (by norm_num)
  have hS : (∑ i ∈ Finset.range 20, (0.3592135881084 / 0.4992 : ℝ) ^ i / i.factorial) +
      (0.3592135881084 / 0.4992 : ℝ) ^ 20 * (20 + 1) / (Nat.factorial 20 * 20) ≤
      (2.053567453254476856431063633341 : ℝ) := by
    simp only [Finset.sum_range_succ, Finset.sum_range_zero]
    norm_num [Nat.factorial]
  rw [hq, Real.exp_nat_mul]
  calc Real.exp (0.3592135881084 / 0.4992) ^ 16
      ≤ (2.053567453254476856431063633341 : ℝ) ^ 16 :=
        pow_le_pow_left₀ (Real.exp_pos _).le (hup.trans hS) 16
    _ ≤ (100033.061878750399451861 : ℝ) := by norm_num

lemma exp_V2_lo : (100033.061879071018239467 : ℝ) ≤ Real.exp (0.3592135881085 / 0.0312) := by
  have hq : (0.3592135881085 : ℝ) / 0.0312 = (16 : ℕ) * (0.3592135881085 / 0.4992) := by
    norm_num
  have hy : (0 : ℝ) ≤ 0.3592135881085 / 0.4992 := by norm_num
  have hlow := Real.sum_le_exp_of_nonneg hy 20
  have hS : (2.053567453254888228115813226214 : ℝ) ≤
      ∑ i ∈ Finset.range 20, (0.3592135881085 / 0.4992 : ℝ) ^ i / i.factorial := by
    simp only [Finset.sum_range_succ, Finset.sum_range_zero]
    norm_num [Nat.factorial]
  rw [hq, Real.exp_nat_mul]
  calc (100033.061879071018239467 : ℝ)
      ≤ (2.053567453254888228115813226214 : ℝ) ^ 16 := by norm_num
    _ ≤ Real.exp (0.3592135881085 / 0.4992) ^ 16 :=
        pow_le_pow_left₀ (by norm_num) (hS.trans hlow) 16

lemma exp_V2_hi : Real.exp (0.3592135881085 / 0.0312) ≤ (100033.061879071018239934 : ℝ) := by
  have hq : (0.3592135881085 : ℝ) / 0.0312 = (16 : ℕ) * (0.3592135881085 / 0.4992) := by
    norm_num
  have hy : (0 : ℝ) ≤ 0.3592135881085 / 0.4992 := by norm_num
  have hy1 : (0.3592135881085 / 0.4992 : ℝ) ≤ 1 := by norm_num
  have hup := @Real.exp_bound' (0.3592135881085 / 0.4992) hy hy1 20 (by norm_num)
  have hS : (∑ i ∈ Finset.range 20, (0.3592135881085 / 0.4992 : ℝ) ^ i / i.factorial) +
      (0.3592135881085 / 0.4992 : ℝ) ^ 20 * (20 + 1) / (Nat.factorial 20 * 20) ≤
      (2.053567453254888228116411125837 : ℝ) := by
    simp only [Finset.sum_range_succ, Finset.sum_range_zero]
    norm_num [Nat.factorial]
  rw [hq, Real.exp_nat_mul]
  calc Real.exp (0.3592135881085 / 0.4992) ^ 16
      ≤ (2.053567453254888228116411125837 : ℝ) ^ 16 :=
        pow_le_pow_left₀ (Real.exp_pos _).le (hup.trans hS) 16
    _ ≤ (100033.061879071018239934 : ℝ) := by norm_num

lemma exp_m1_lo : (0.999679538538234226101576375372 : ℝ) ≤
    Real.exp (-(0.0000099999999999943125892073 : ℝ) / 0.0312) := by
  have hz : |(-(0.0000099999999999943125892073 : ℝ) / 0.0312)| ≤ 1 := by
    rw [abs_le]
    constructor <;> norm_num
  have hb := @Real.exp_bound (-(0.0000099999999999943125892073 : ℝ) / 0.0312) hz 8 (by norm_num)
  have h1 := (abs_le.mp hb).1
  have habs : |(-(0.0000099999999999943125892073 : ℝ) / 0.0312)| =
      (0.0000099999999999943125892073 : ℝ) / 0.0312 := by
    rw [abs_of_nonpos (by norm_num)]
    ring
  rw [habs] at h1
  have hSum : ∑ m ∈ Finset.range 8, (-(0.0000099999999999943125892073 : ℝ) / 0.0312) ^ m /
      m.factorial - ((0.0000099999999999943125892073 : ℝ) / 0.0312) ^ 8 *
      (Nat.succ 8 / (Nat.factorial 8 * 8)) ≥ (0.999679538538234226101576375372 : ℝ) := by
    simp only [Finset.sum_range_succ, Finset.sum_range_zero]
    norm_num [Nat.factorial]
  linarith

lemma exp_m2_lo : (0.999679538538233199464989817433 : ℝ) ≤
    Real.exp (-(0.0000100000000000263539187192 : ℝ) / 0.0312) := by
  have hz : |(-(0.0000100000000000263539187192 : ℝ) / 0.0312)| ≤ 1 := by
    rw [abs_le]
    constructor <;> norm_num
  have hb := @Real.exp_bound (-(0.0000100000000000263539187192 : ℝ) / 0.0312) hz 8 (by norm_num)
  have h1 := (abs_le.mp hb).1
  have habs : |(-(0.0000100000000000263539187192 : ℝ) / 0.0312)| =
      (0.0000100000000000263539187192 : ℝ) / 0.0312 := by
    rw [abs_of_nonpos (by norm_num)]
    ring
  rw [habs] at h1
  have hSum : ∑ m ∈ Finset.range 8, (-(0.0000100000000000263539187192 : ℝ) / 0.0312) ^ m /
      m.factorial - ((0.0000100000000000263539187192 : ℝ) / 0.0312) ^ 8 *
      (Nat.succ 8 / (Nat.factorial 8 * 8)) ≥ (0.999679538538233199464989817433 : ℝ) := by
    simp only [Finset.sum_range_succ, Finset.sum_range_zero]
    norm_num [Nat.factorial]
  linarith

lemma exp_m2_hi : Real.exp (-(0.0000100000000000263539186724 : ℝ) / 0.0312) ≤
    (0.999679538538233199464991316953 : ℝ) := by
  have hz : |(-(0.0000100000000000263539186724 : ℝ) / 0.0312)| ≤ 1 := by
    rw [abs_le]
    constructor <;> norm_num
  have hb := @Real.exp_bound (-(0.0000100000000000263539186724 : ℝ) / 0.0312) hz 8 (by norm_num)
  have h1 := (abs_le.mp hb).2
  have habs : |(-(0.0000100000000000263539186724 : ℝ) / 0.0312)| =
      (0.0000100000000000263539186724 : ℝ) / 0.0312 := by
    rw [abs_of_nonpos (by norm_num)]
    ring
  rw [habs] at h1
  have hSum : ∑ m ∈ Finset.range 8, (-(0.0000100000000000263539186724 : ℝ) / 0.0312) ^ m /
      m.factorial + ((0.0000100000000000263539186724 : ℝ) / 0.0312) ^ 8 *
      (Nat.succ 8 / (Nat.factorial 8 * 8)) ≤ (0.999679538538233199464991316953 : ℝ) := by
    simp only [Finset.sum_range_succ, Finset.sum_range_zero]
    norm_num [Nat.factorial]
  linarith

lemma exp_m3_hi : Real.exp (-(0.0000100000005136190095477421 : ℝ) / 0.0312) ≤
    (0.999679538521777171613335282729 : ℝ) := by
  have hz : |(-(0.0000100000005136190095477421 : ℝ) / 0.0312)| ≤ 1 := by
    rw [abs_le]
    constructor <;> norm_num
  have hb := @Real.exp_bound (-(0.0000100000005136190095477421 : ℝ) / 0.0312) hz 8 (by norm_num)
  have h1 := (abs_le.mp hb).2
  have habs : |(-(0.0000100000005136190095477421 : ℝ) / 0.0312)| =
      (0.0000100000005136190095477421 : ℝ) / 0.0312 := by
    rw [abs_of_nonpos (by norm_num)]
    ring
  rw [habs] at h1
  have hSum : ∑ m ∈ Finset.range 8, (-(0.0000100000005136190095477421 : ℝ) / 0.0312) ^ m /
      m.factorial + ((0.0000100000005136190095477421 : ℝ) / 0.0312) ^ 8 *
      (Nat.succ 8 / (Nat.factorial 8 * 8)) ≤ (0.999679538521777171613335282729 : ℝ) := by
    simp only [Finset.sum_range_succ, Finset.sum_range_zero]
    norm_num [Nat.factorial]
  linarith

lemma moderate_nVT : (getDiodeParams .MODERATE).n * THERMAL_VOLTAGE_VT = 0.0312 := by
  norm_num [getDiodeParams, THERMAL_VOLTAGE_VT]

lemma moderate_fRes (V x : ℝ) :
    fRes (getDiodeParams .MODERATE) V x =
      x + 1e-10 * (Real.exp (x / 0.0312) - 1) - V := by
  have hIsRs : (getDiodeParams .MODERATE).Is * (getDiodeParams .MODERATE).Rs = 1e-10 := by
    norm_num [getDiodeParams]
  simp only [fRes, moderate_nVT, hIsRs]

lemma moderate_dfRes (x : ℝ) :
    dfRes (getDiodeParams .MODERATE) x =
      1 + 1e-10 / 0.0312 * Real.exp (x / 0.0312) := by
  have hIsRs : (getDiodeParams .MODERATE).Is * (getDiodeParams .MODERATE).Rs = 1e-10 := by
    norm_num [getDiodeParams]
  simp only [dfRes, moderate_nVT, hIsRs]
  ring

lemma counterexample_I1_lower :
    1e-11 * (100033.061878750399451394 * 0.999679538538234226101576375372 - 1) ≤
      calculateCurrent 0.3592135881084 (getDiodeParams .MODERATE) .NON_IDEAL := by
  have hE1pos := Real.exp_pos (0.3592135881084 / 0.0312)
  have hE1lo := exp_V1_lo
  have hE1hi := exp_V1_hi
  set s0 := fRes (getDiodeParams .MODERATE) 0.3592135881084 0.3592135881084 /
    dfRes (getDiodeParams .MODERATE) 0.3592135881084 with hs0def
  have hf1 : fRes (getDiodeParams .MODERATE) 0.3592135881084 0.3592135881084 =
      1e-10 * (Real.exp (0.3592135881084 / 0.0312) - 1) := by
    rw [moderate_fRes]
    ring
  have hdf1 : dfRes (getDiodeParams .MODERATE) 0.3592135881084 =
      1 + 1e-10 / 0.0312 * Real.exp (0.3592135881084 / 0.0312) := moderate_dfRes _
  have hdf1pos : 0 < dfRes (getDiodeParams .MODERATE) 0.3592135881084 := by
    rw [hdf1]
    positivity
  have hs0pos : 0 < s0 := by
    rw [hs0def]
    exact div_pos (by rw [hf1]; nlinarith [hE1lo]) hdf1pos
  have hs0hi : s0 ≤ 0.0000099999999999943125892073 := by
    rw [hs0def, div_le_iff hdf1pos, hf1, hdf1]
    linarith [hE1lo, hE1hi]
  have hcond : |0.3592135881084 -
      fRes (getDiodeParams .MODERATE) 0.3592135881084 0.3592135881084 /
        dfRes (getDiodeParams .MODERATE) 0.3592135881084 - 0.3592135881084| < 1e-5 := by
    have heq : (0.3592135881084 : ℝ) -
        fRes (getDiodeParams .MODERATE) 0.3592135881084 0.3592135881084 /
          dfRes (getDiodeParams .MODERATE) 0.3592135881084 - 0.3592135881084 = -s0 := by
      rw [hs0def]
      ring
    rw [heq, abs_neg, abs_of_pos hs0pos]
    exact lt_of_le_of_lt hs0hi (by norm_num)
  have hrun1 : newtonLoop (getDiodeParams .MODERATE) 0.3592135881084 10 0.3592135881084 =
      0.3592135881084 - s0 := by
    rw [show (10 : ℕ) = 9 + 1 from rfl, newtonLoop_succ, if_pos hcond, hs0def]
  have hI1 : calculateCurrent 0.3592135881084 (getDiodeParams .MODERATE) .NON_IDEAL =
      1e-11 * (Real.exp ((0.3592135881084 - s0) / 0.0312) - 1) := by
    simp only [calculateCurrent]
    rw [if_pos (by norm_num : (0 : ℝ) ≤ 0.3592135881084), hrun1,
      if_neg (not_lt.mpr (by linarith)), moderate_nVT,
      show (getDiodeParams .MODERATE).Is = 1e-11 from by norm_num [getDiodeParams]]
  rw [hI1]
  have hsplit : Real.exp ((0.3592135881084 - s0) / 0.0312) =
      Real.exp (0.3592135881084 / 0.0312) * Real.exp (-s0 / 0.0312) := by
    rw [← Real.exp_add]
    congr 1
    ring
  have hmono : Real.exp (-(0.0000099999999999943125892073 : ℝ) / 0.0312) ≤
      Real.exp (-s0 / 0.0312) :=
    Real.exp_le_exp.mpr (div_le_div_of_nonneg_right (neg_le_neg hs0hi) (by norm_num))
  have hm1 : (0.999679538538234226101576375372 : ℝ) ≤ Real.exp (-s0 / 0.0312) :=
    exp_m1_lo.trans hmono
  have hprod : (100033.061878750399451394 : ℝ) * 0.999679538538234226101576375372 ≤
      Real.exp (0.3592135881084 / 0.0312) * Real.exp (-s0 / 0.0312) :=
    mul_le_mul hE1lo hm1 (by norm_num) hE1pos.le
  rw [hsplit]
  nlinarith [hprod]

lemma counterexample_I2_upper :
    calculateCurrent 0.3592135881085 (getDiodeParams .MODERATE) .NON_IDEAL ≤
      1e-11 * (100033.061879071018239934 * 0.999679538521777171613335282729 - 1) := by
  have hE2pos := Real.exp_pos (0.3592135881085 / 0.0312)
  have hE2lo := exp_V2_lo
  have hE2hi := exp_V2_hi
  set s0 := fRes (getDiodeParams .MODERATE) 0.3592135881085 0.3592135881085 /
    dfRes (getDiodeParams .MODERATE) 0.3592135881085 with hs0def
  have hf1 : fRes (getDiodeParams .MODERATE) 0.3592135881085 0.3592135881085 =
      1e-10 * (Real.exp (0.3592135881085 / 0.0312) - 1) := by
    rw [moderate_fRes]
    ring
  have hdf1 : dfRes (getDiodeParams .MODERATE) 0.3592135881085 =
      1 + 1e-10 / 0.0312 * Real.exp (0.3592135881085 / 0.0312) := moderate_dfRes _
  have hdf1pos : 0 < dfRes (getDiodeParams .MODERATE) 0.3592135881085 := by
    rw [hdf1]
    positivity
  have hs0pos : 0 < s0 := by
    rw [hs0def]
    exact div_pos (by rw [hf1]; nlinarith [hE2lo]) hdf1pos
  have hs0lo : (0.0000100000000000263539186724 : ℝ) ≤ s0 := by
    rw [hs0def, le_div_iff hdf1pos, hf1, hdf1]
    linarith [hE2lo, hE2hi]
  have hs0hi : s0 ≤ 0.0000100000000000263539187192 := by
    rw [hs0def, div_le_iff hdf1pos, hf1, hdf1]
    linarith [hE2lo, hE2hi]
  -- the first iteration does not hit the early exit
  have hnobreak : ¬(|0.3592135881085 -
      fRes (getDiodeParams .MODERATE) 0.3592135881085 0.3592135881085 /
        dfRes (getDiodeParams .MODERATE) 0.3592135881085 - 0.3592135881085| < 1e-5) := by
    have heq : (0.3592135881085 : ℝ) -
        fRes (getDiodeParams .MODERATE) 0.3592135881085 0.3592135881085 /
          dfRes (getDiodeParams .MODERATE) 0.3592135881085 - 0.3592135881085 = -s0 := by
      rw [hs0def]
      ring
    rw [heq, abs_neg, abs_of_pos hs0pos]
    push_neg
    calc (1e-5 : ℝ) ≤ 0.0000100000000000263539186724 := by norm_num
      _ ≤ s0 := hs0lo
  -- the junction voltage after the first step, and its exponential
  have hsplitE : Real.exp ((0.3592135881085 - s0) / 0.0312) =
      Real.exp (0.3592135881085 / 0.0312) * Real.exp (-s0 / 0.0312) := by
    rw [← Real.exp_add]
    congr 1
    ring
  have hdlo : (0.999679538538233199464989817433 : ℝ) ≤ Real.exp (-s0 / 0.0312) :=
    exp_m2_lo.trans (Real.exp_le_exp.mpr
      (div_le_div_of_nonneg_right (neg_le_neg hs0hi) (by norm_num)))
  have hdhi : Real.exp (-s0 / 0.0312) ≤ (0.999679538538233199464991316953 : ℝ) :=
    (Real.exp_le_exp.mpr
      (div_le_div_of_nonneg_right (neg_le_neg hs0lo) (by norm_num))).trans exp_m2_hi
  have hdpos : (0 : ℝ) ≤ Real.exp (-s0 / 0.0312) := (Real.exp_pos _).le
  have hEplo : (100001.005137836242330271 : ℝ) ≤
      Real.exp ((0.3592135881085 - s0) / 0.0312) := by
    rw [hsplitE]
    calc (100001.005137836242330271 : ℝ)
        ≤ 100033.061879071018239467 * 0.999679538538233199464989817433 := by norm_num
      _ ≤ Real.exp (0.3592135881085 / 0.0312) * Real.exp (-s0 / 0.0312) :=
          mul_le_mul hE2lo hdlo (by norm_num) hE2pos.le
  have hEphi : Real.exp ((0.3592135881085 - s0) / 0.0312) ≤
      (100001.005137836242330739 : ℝ) := by
    rw [hsplitE]
    calc Real.exp (0.3592135881085 / 0.0312) * Real.exp (-s0 / 0.0312)
        ≤ 100033.061879071018239934 * 0.999679538538233199464991316953 :=
          mul_le_mul hE2hi hdhi hdpos (by norm_num)
      _ ≤ (100001.005137836242330739 : ℝ) := by norm_num
  -- second-iteration residual, derivative and step
  have hfx : fRes (getDiodeParams .MODERATE) 0.3592135881085 (0.3592135881085 - s0) =
      (0.3592135881085 - s0) +
        1e-10 * (Real.exp ((0.3592135881085 - s0) / 0.0312) - 1) - 0.3592135881085 :=
    moderate_fRes _ _
  have hfxlo : (0.0000000000005137572703143079 : ℝ) ≤
      fRes (getDiodeParams .MODERATE) 0.3592135881085 (0.3592135881085 - s0) := by
    rw [hfx]
    linarith [hEplo, hs0hi]
  have hfxhi : fRes (getDiodeParams .MODERATE) 0.3592135881085 (0.3592135881085 - s0) ≤
      (0.0000000000005137572703144015 : ℝ) := by
    rw [hfx]
    linarith [hEphi, hs0lo]
  have hdfx : dfRes (getDiodeParams .MODERATE) (0.3592135881085 - s0) =
      1 + 1e-10 / 0.0312 * Real.exp ((0.3592135881085 - s0) / 0.0312) := moderate_dfRes _
  have hdfxpos : 0 < dfRes (getDiodeParams .MODERATE) (0.3592135881085 - s0) := by
    rw [hdfx]
    positivity
  set s1 := fRes (getDiodeParams .MODERATE) 0.3592135881085 (0.3592135881085 - s0) /
    dfRes (getDiodeParams .MODERATE) (0.3592135881085 - s0) with hs1def
  have hs1pos : 0 < s1 := by
    rw [hs1def]
    exact div_pos (lt_of_lt_of_le (by norm_num) hfxlo) hdfxpos
  have hs1lo : (0.0000000000005135926556290697 : ℝ) ≤ s1 := by
    rw [hs1def, le_div_iff hdfxpos, hdfx]
    linarith [hfxlo, hEphi]
  have hs1hi : s1 ≤ (0.0000000000005135926556291633 : ℝ) := by
    rw [hs1def, div_le_iff hdfxpos, hdfx]
    linarith [hfxhi, hEplo]
  -- the second iteration hits the early exit
  have hcond2 : |(0.3592135881085 - s0) -
      fRes (getDiodeParams .MODERATE) 0.3592135881085 (0.3592135881085 - s0) /
        dfRes (getDiodeParams .MODERATE) (0.3592135881085 - s0) -
      (0.3592135881085 - s0)| < 1e-5 := by
    have heq : (0.3592135881085 - s0) -
        fRes (getDiodeParams .MODERATE) 0.3592135881085 (0.3592135881085 - s0) /
          dfRes (getDiodeParams .MODERATE) (0.3592135881085 - s0) -
        (0.3592135881085 - s0) = -s1 := by
      rw [hs1def]
      ring
    rw [heq, abs_neg, abs_of_pos hs1pos]
    exact lt_of_le_of_lt hs1hi (by norm_num)
  have hrun : newtonLoop (getDiodeParams .MODERATE) 0.3592135881085 10 0.3592135881085 =
      (0.3592135881085 - s0) - s1 := by
    rw [show (10 : ℕ) = 9 + 1 from rfl, newtonLoop_succ, if_neg hnobreak, ← hs0def,
      show (9 : ℕ) = 8 + 1 from rfl, newtonLoop_succ, if_pos hcond2, hs1def]
  have hI2 : calculateCurrent 0.3592135881085 (getDiodeParams .MODERATE) .NON_IDEAL =
      1e-11 * (Real.exp (((0.3592135881085 - s0) - s1) / 0.0312) - 1) := by
    simp only [calculateCurrent]
    rw [if_pos (by norm_num : (0 : ℝ) ≤ 0.3592135881085), hrun,
      if_neg (not_lt.mpr (by linarith)), moderate_nVT,
      show (getDiodeParams .MODERATE).Is = 1e-11 from by norm_num [getDiodeParams]]
  rw [hI2]
  have hsplit3 : Real.exp (((0.3592135881085 - s0) - s1) / 0.0312) =
      Real.exp (0.3592135881085 / 0.0312) * Real.exp (-(s0 + s1) / 0.0312) := by
    rw [← Real.exp_add]
    congr 1
    ring
  have hzsum : -(s0 + s1) / 0.0312 ≤ -(0.0000100000005136190095477421 : ℝ) / 0.0312 := by
    apply div_le_div_of_nonneg_right _ (by norm_num)
    have : (0.0000100000005136190095477421 : ℝ) =
        0.0000100000000000263539186724 + 0.0000000000005135926556290697 := by norm_num
    linarith [hs0lo, hs1lo]
  have hm3 : Real.exp (-(s0 + s1) / 0.0312) ≤ (0.999679538521777171613335282729 : ℝ) :=
    (Real.exp_le_exp.mpr hzsum).trans exp_m3_hi
  have hX : Real.exp (0.3592135881085 / 0.0312) * Real.exp (-(s0 + s1) / 0.0312) ≤
      100033.061879071018239934 * 0.999679538521777171613335282729 :=
    mul_le_mul hE2hi hm3 (Real.exp_pos _).le (by norm_num)
  rw [hsplit3]
  nlinarith [hX]

/-- C7 counterexample: with the (valid) Moderate parameter set, the non-ideal
    forward current strictly decreases between the applied voltages
    `0.3592135881084 < 0.3592135881085`: the smaller voltage makes the Newton
    loop exit after one iteration while the larger one runs a second
    iteration, whose downward step exceeds what the voltage increment adds.
    Hence `calculateCurrent` in NonIdeal mode is not monotone on `v ≥ 0`. -/
theorem claim_C7_counterexample :
    (getDiodeParams .MODERATE).Valid ∧
    (0 : ℝ) ≤ 0.3592135881084 ∧ (0.3592135881084 : ℝ) < 0.3592135881085 ∧
    calculateCurrent 0.3592135881085 (getDiodeParams .MODERATE) .NON_IDEAL <
      calculateCurrent 0.3592135881084 (getDiodeParams .MODERATE) .NON_IDEAL := by
  refine ⟨by norm_num [DiodeParams.Valid, getDiodeParams], by norm_num, by norm_num, ?_⟩
  calc calculateCurrent 0.3592135881085 (getDiodeParams .MODERATE) .NON_IDEAL
      ≤ 1e-11 * (100033.061879071018239934 * 0.999679538521777171613335282729 - 1) :=
        counterexample_I2_upper
    _ < 1e-11 * (100033.061878750399451394 * 0.999679538538234226101576375372 - 1) := by
        norm_num
    _ ≤ calculateCurrent 0.3592135881084 (getDiodeParams .MODERATE) .NON_IDEAL :=
        counterexample_I1_lower

end PNJunction
